import Mathlib

/-!
# Verification of the `tline` transmission-line FDTD simulator

This development shallowly embeds the numeric kernels of the `tline`
crate (a 1-D finite-difference time-domain transmission-line simulator)
and proves or refutes the specification claims about them.

Machine floating-point (`f32`) arithmetic is modelled by exact rational
arithmetic (`ℚ`); `Real` is used where the source computes square roots.
Division follows the Lean convention `x / 0 = 0`, which is irrelevant for
the structural and algebraic facts proved here (both sides of every
compared expression use the same operations).

Sources embedded:
* `src/simulation.rs` — `SimulationParameters`, `SimulationState`,
  `Simulation::new`, `Simulation::run` (batching and persistence loop);
* `src/fdtd/fdtd_solver.rs` — `FdtdSolver::compute`;
* `src/fdtd/components/linear_line.rs` — `LinearLine`;
* `src/fdtd/components/ki_line.rs` — `KiLine`;
* `src/fdtd/components/vsource.rs`, `terminator.rs` — boundary models
  (kept abstract where the claims quantify over them).
-/

namespace Tline

/-- Model of `SimulationParameters` from `src/simulation.rs`: the spatial step
`delta_z` and the temporal step `delta_t`. -/
structure SimulationParameters where
  delta_z : ℚ
  delta_t : ℚ
deriving DecidableEq

/-- Model of `SimulationState` from `src/simulation.rs`: elapsed time plus the
voltage and current rows. -/
structure SimulationState where
  time : ℚ
  voltages : List ℚ
  currents : List ℚ
deriving DecidableEq

/-! ## Per-cell line models -/

/-- One Newton iteration for the cubic `a·x³ + b·x² + c·x + d`, exactly as
written in the loop body of `KiLine::next_current`
(`src/fdtd/components/ki_line.rs`, lines 95-101):
`x - (a x³ + b x² + c x + d) / (3 a x² + 2 b x + c)`. -/
def newtonStep (a b c d x : ℚ) : ℚ :=
  x - (a * x ^ 3 + b * x ^ 2 + c * x + d) / (3 * a * x ^ 2 + 2 * b * x + c)

namespace KiLine

/-- Model of `KiLine::next_voltage` (`src/fdtd/components/ki_line.rs`, lines 58-71).
The per-cell capacitance array `cap` is abstracted as a function of the
index.  `i_left`/`i_right` are the two entries of the `last_currs` window. -/
def next_voltage (cap : ℕ → ℚ) (last_volt i_left i_right : ℚ) (index : ℕ)
    (p : SimulationParameters) : ℚ :=
  let d_ratio := p.delta_z / p.delta_t
  (d_ratio * cap index)⁻¹
    * (d_ratio * cap index * last_volt + (i_left - i_right))

/-- Model of `KiLine::next_current` (`src/fdtd/components/ki_line.rs`, lines 72-104).
`ind0` is the stored total (geometric + kinetic) inductance per cell and
`crit_cur` the stored effective critical current per cell; `v_left`/`v_right`
are the two entries of the `last_volts` window.  The code sets
`a = 1`, `b = last_curr`, `c = i_crit² - last_curr²`,
`d = i_crit²·Δt·dv/(Δz·ind) - i_crit²·last_curr - last_curr³` with
`dv = last_volts[1] - last_volts[0]`, then runs three Newton iterations
seeded at `last_curr`. -/
def next_current (ind0 crit_cur : ℕ → ℚ) (v_left v_right last_curr : ℚ)
    (index : ℕ) (p : SimulationParameters) : ℚ :=
  let ind := ind0 index
  let i_crit := crit_cur index
  let dv := v_right - v_left
  let a : ℚ := 1
  let b := last_curr
  let c := i_crit ^ 2 - last_curr ^ 2
  let d := i_crit ^ 2 * p.delta_t * dv / (p.delta_z * ind)
    - i_crit ^ 2 * last_curr - last_curr ^ 3
  newtonStep a b c d (newtonStep a b c d (newtonStep a b c d last_curr))

end KiLine

namespace LinearLine

/-- Model of `LinearLine::next_voltage` (`src/fdtd/components/linear_line.rs`,
lines 52-66), with the per-cell capacitance and conductance arrays
abstracted as functions of the index. -/
def next_voltage (cap cond : ℕ → ℚ) (last_volt i_left i_right : ℚ)
    (index : ℕ) (p : SimulationParameters) : ℚ :=
  let d_ratio := p.delta_z / p.delta_t
  (d_ratio * cap index + p.delta_z * cond index / 2)⁻¹
    * ((d_ratio * cap index - p.delta_z * cond index / 2) * last_volt
        + (i_left - i_right))

/-- Model of `LinearLine::next_current` (`src/fdtd/components/linear_line.rs`,
lines 67-81). -/
def next_current (ind res : ℕ → ℚ) (v_left v_right last_curr : ℚ)
    (index : ℕ) (p : SimulationParameters) : ℚ :=
  let d_ratio := p.delta_z / p.delta_t
  (d_ratio * ind index + p.delta_z * res index / 2)⁻¹
    * ((d_ratio * ind index - p.delta_z * res index / 2) * last_curr
        + (v_left - v_right))

end LinearLine

/-! ## Claim-side definitions for C1 (refinement comparison)

`cubicNewton3` runs exactly three Newton iterations of the monic cubic
`I³ + b·I² + c·I + d` seeded at `i_prev`, following the words of the
specification sentence behind claim C1.  `claimC1_next_current` instantiates
the coefficients exactly as the claim states them (`b = -I_prev`), and
`amendedC1_next_current` with the sign the code actually uses
(`b = I_prev`). -/

/-- Three Newton iterations of the monic cubic `I³ + b·I² + c·I + d`
seeded at `i_prev` (the claim's described root-finding procedure). -/
def cubicNewton3 (b c d i_prev : ℚ) : ℚ :=
  newtonStep 1 b c d (newtonStep 1 b c d (newtonStep 1 b c d i_prev))

/-- The next-current operation exactly as claim C1 words it:
`b = -I_prev`, `c = I_crit² - I_prev²`,
`d = I_crit²·(Δt/(Δz·L))·ΔV - I_crit²·I_prev - I_prev³`,
three Newton iterations seeded at `I_prev`. -/
def claimC1_next_current (i_prev i_crit dV L delta_z delta_t : ℚ) : ℚ :=
  cubicNewton3 (-i_prev) (i_crit ^ 2 - i_prev ^ 2)
    (i_crit ^ 2 * (delta_t / (delta_z * L)) * dV
      - i_crit ^ 2 * i_prev - i_prev ^ 3) i_prev

/-- Claim C1 amended to match the code: the quadratic coefficient is
`b = I_prev` (not `-I_prev`); everything else as the claim states. -/
def amendedC1_next_current (i_prev i_crit dV L delta_z delta_t : ℚ) : ℚ :=
  cubicNewton3 i_prev (i_crit ^ 2 - i_prev ^ 2)
    (i_crit ^ 2 * (delta_t / (delta_z * L)) * dV
      - i_crit ^ 2 * i_prev - i_prev ^ 3) i_prev

end Tline

namespace Tline

/-- Claim C1, as stated, is false: at cell 0 with stored total inductance
`L = 1`, effective critical current `I_crit = 2`, previous current
`I_prev = 1`, equal flanking voltages (`ΔV = 0`) and `Δz = Δt = 1`, the
code's `KiLine::next_current` returns `1` (the seed is already a root of
the code's cubic, whose quadratic coefficient is `+I_prev`), while three
Newton iterations of the claim's cubic (`b = -I_prev`) move away from the
seed and give `169171/120609 ≠ 1`. -/
theorem claimC1_counterexample :
    KiLine.next_current (fun _ => 1) (fun _ => 2) 0 0 1 0 ⟨1, 1⟩
      ≠ claimC1_next_current 1 2 0 1 1 1 := by
  have hcode : KiLine.next_current (fun _ => 1) (fun _ => 2) 0 0 1 0 ⟨1, 1⟩
      = 1 := by
    unfold KiLine.next_current newtonStep
    norm_num
  have hclaim : claimC1_next_current 1 2 0 1 1 1 = 169171 / 120609 := by
    unfold claimC1_next_current cubicNewton3 newtonStep
    norm_num
  rw [hcode, hclaim]
  norm_num

/-- Claim C1 (corrected): for every cell index, previous current,
flanking voltages, and parameters, `KiLine::next_current` returns the
third Newton iterate, seeded at the previous current, of the cubic
`I³ + b·I² + c·I + d` with `b = I_prev` (the amended sign),
`c = I_crit² - I_prev²`, `d = I_crit²·(Δt/(Δz·L))·ΔV - I_crit²·I_prev -
I_prev³`, where `ΔV = v_right - v_left`, `L` is the cell's stored total
inductance and `I_crit` its stored effective critical current. -/
theorem kiLine_next_current_eq_amendedC1
    (ind0 crit_cur : ℕ → ℚ) (v_left v_right last_curr : ℚ) (index : ℕ)
    (p : SimulationParameters) :
    KiLine.next_current ind0 crit_cur v_left v_right last_curr index p
      = amendedC1_next_current last_curr (crit_cur index)
          (v_right - v_left) (ind0 index) p.delta_z p.delta_t := by
  have hd : (crit_cur index) ^ 2 * p.delta_t * (v_right - v_left)
        / (p.delta_z * ind0 index)
      = (crit_cur index) ^ 2 * (p.delta_t / (p.delta_z * ind0 index))
        * (v_right - v_left) := by
    ring
  calc KiLine.next_current ind0 crit_cur v_left v_right last_curr index p
      = cubicNewton3 last_curr ((crit_cur index) ^ 2 - last_curr ^ 2)
          ((crit_cur index) ^ 2 * p.delta_t * (v_right - v_left)
              / (p.delta_z * ind0 index)
            - (crit_cur index) ^ 2 * last_curr - last_curr ^ 3)
          last_curr := rfl
    _ = cubicNewton3 last_curr ((crit_cur index) ^ 2 - last_curr ^ 2)
          ((crit_cur index) ^ 2 * (p.delta_t / (p.delta_z * ind0 index))
              * (v_right - v_left)
            - (crit_cur index) ^ 2 * last_curr - last_curr ^ 3)
          last_curr := by rw [hd]
    _ = amendedC1_next_current last_curr (crit_cur index)
          (v_right - v_left) (ind0 index) p.delta_z p.delta_t := rfl

/-- Claim C7: with previous current `0`, effective critical current `1`
and equal flanking voltages (`ΔV = 0`), the three Newton iterations in
`KiLine::next_current` return exactly `0`, for every strictly positive
inductance and positive `Δz`, `Δt`. -/
theorem kiLine_next_current_zero
    (L v delta_z delta_t : ℚ)
    (hL : 0 < L) (hz : 0 < delta_z) (ht : 0 < delta_t) :
    KiLine.next_current (fun _ => L) (fun _ => 1) v v 0 0
      ⟨delta_z, delta_t⟩ = 0 := by
  unfold KiLine.next_current newtonStep
  norm_num

/-- Witness for C7 at `L = Δz = Δt = 1`, flanking voltages `0`. -/
theorem kiLine_next_current_zero_witness :
    KiLine.next_current (fun _ => 1) (fun _ => 1) 0 0 0 0 ⟨1, 1⟩ = 0 :=
  kiLine_next_current_zero 1 0 1 1 (by norm_num) (by norm_num) (by norm_num)

/-- Claim C9: `KiLine::next_voltage` computes exactly the same result as
`LinearLine::next_voltage` with the same per-cell capacitance and zero
conductance (the lossless linear form), for every input. -/
theorem kiLine_next_voltage_eq_lossless_linear
    (cap : ℕ → ℚ) (last_volt i_left i_right : ℚ) (index : ℕ)
    (p : SimulationParameters) :
    KiLine.next_voltage cap last_volt i_left i_right index p
      = LinearLine.next_voltage cap (fun _ => 0) last_volt i_left i_right
          index p := by
  unfold KiLine.next_voltage LinearLine.next_voltage
  norm_num

/-! ## The FDTD solver (`src/fdtd/fdtd_solver.rs`)

`FdtdSolver::compute` is generic over the transmission line and holds
boxed `VSource`/`Terminator` trait objects; the embedding keeps those
behaviours abstract as function records, exactly mirroring the trait
signatures in `src/fdtd.rs`. -/

/-- The `Component` trait (`src/fdtd.rs`): `next_voltage` receives the
previous voltage at a node, the two flanking previous currents
(`last_currs` window), the cell index and the parameters; `next_current`
receives the two flanking voltages (`last_volts` window), the previous
current, the cell index and the parameters. -/
structure Component where
  next_voltage : ℚ → ℚ → ℚ → ℕ → SimulationParameters → ℚ
  next_current : ℚ → ℚ → ℚ → ℕ → SimulationParameters → ℚ

/-- The `VSource` trait (`src/fdtd.rs`): next boundary voltage from the
simulation time, the previous boundary voltage and current, and the
parameters. -/
structure VSource where
  next_voltage : ℚ → ℚ → ℚ → SimulationParameters → ℚ

/-- The `Terminator` trait (`src/fdtd.rs`): next boundary voltage from the
previous boundary voltage and current; next boundary current from the two
innermost voltages and the previous boundary current. -/
structure Terminator where
  next_voltage : ℚ → ℚ → SimulationParameters → ℚ
  next_current : ℚ → ℚ → ℚ → SimulationParameters → ℚ

/-- Model of `FdtdSolver` (`src/fdtd/fdtd_solver.rs`): one line model, one source,
one terminator, and the line's cell count `npoints`. -/
structure FdtdSolver where
  npoints : ℕ
  tline : Component
  source : VSource
  terminator : Terminator

/-- One step's voltage row, exactly as `FdtdSolver::compute` fills row
`t_index+1` of `voltages` (`src/fdtd/fdtd_solver.rs`, lines 47-82):
node 0 from the source at time `t`; interior node `z+1` (cell `z` for
`z < npoints`) from the previous voltage there and the flanking previous
currents `z`, `z+1`; the last node (`npoints+1`) from the terminator with
the previous last voltage and previous current `npoints`. -/
def nextVoltRow (S : FdtdSolver) (p : SimulationParameters) (t : ℚ)
    (volts currs : List ℚ) : List ℚ :=
  S.source.next_voltage t (volts.getD 0 0) (currs.getD 0 0) p
    :: ((List.range S.npoints).map (fun z =>
          S.tline.next_voltage (volts.getD (z + 1) 0) (currs.getD z 0)
            (currs.getD (z + 1) 0) z p))
    ++ [S.terminator.next_voltage (volts.getD (S.npoints + 1) 0)
          (currs.getD S.npoints 0) p]

/-- One step's current row, exactly as `FdtdSolver::compute` fills row
`t_index+1` of `currents` (`src/fdtd/fdtd_solver.rs`, lines 84-99):
node `z < npoints` from the *freshly updated* voltages `z`, `z+1` of
`newVolts` and the previous current `z`; the last node (`npoints`) from
the terminator with the two innermost fresh voltages and the previous
last current. -/
def nextCurrRow (S : FdtdSolver) (p : SimulationParameters)
    (newVolts currs : List ℚ) : List ℚ :=
  ((List.range S.npoints).map (fun z =>
      S.tline.next_current (newVolts.getD z 0) (newVolts.getD (z + 1) 0)
        (currs.getD z 0) z p))
    ++ [S.terminator.next_current (newVolts.getD S.npoints 0)
          (newVolts.getD (S.npoints + 1) 0) (currs.getD S.npoints 0) p]

/-- Row `k` of the trajectory built by `FdtdSolver::compute`: row 0 is the
input state; row `k+1` is produced from row `k`, with the source queried
at `t = k·Δt + state.time` and the current row consuming the just-computed
voltage row. -/
def rowAt (S : FdtdSolver) (p : SimulationParameters)
    (s0 : SimulationState) : ℕ → List ℚ × List ℚ
  | 0 => (s0.voltages, s0.currents)
  | k + 1 =>
      (nextVoltRow S p ((k : ℚ) * p.delta_t + s0.time)
         (rowAt S p s0 k).1 (rowAt S p s0 k).2,
       nextCurrRow S p
         (nextVoltRow S p ((k : ℚ) * p.delta_t + s0.time)
           (rowAt S p s0 k).1 (rowAt S p s0 k).2)
         (rowAt S p s0 k).2)

/-- Model of `FdtdSolver::compute` (`src/fdtd/fdtd_solver.rs`, lines 31-107): the
pair of trajectories, `nsteps+1` voltage rows and `nsteps+1` current
rows. -/
def compute (S : FdtdSolver) (p : SimulationParameters)
    (s0 : SimulationState) (nsteps : ℕ) :
    List (List ℚ) × List (List ℚ) :=
  ((List.range (nsteps + 1)).map (fun k => (rowAt S p s0 k).1),
   (List.range (nsteps + 1)).map (fun k => (rowAt S p s0 k).2))

theorem nextVoltRow_length (S : FdtdSolver) (p : SimulationParameters)
    (t : ℚ) (volts currs : List ℚ) :
    (nextVoltRow S p t volts currs).length = S.npoints + 2 := by
  simp [nextVoltRow]

theorem nextCurrRow_length (S : FdtdSolver) (p : SimulationParameters)
    (newVolts currs : List ℚ) :
    (nextCurrRow S p newVolts currs).length = S.npoints + 1 := by
  simp [nextCurrRow]

theorem getD_map_range {α : Type} (f : ℕ → α) (m k : ℕ) (hk : k < m)
    (d : α) : ((List.range m).map f).getD k d = f k := by
  rw [List.getD_eq_getElem _ _ (by simpa using hk)]
  simp

theorem compute_fst_getD (S : FdtdSolver) (p : SimulationParameters)
    (s0 : SimulationState) (n k : ℕ) (hk : k ≤ n) :
    (compute S p s0 n).1.getD k [] = (rowAt S p s0 k).1 :=
  getD_map_range _ _ _ (by omega) _

theorem compute_snd_getD (S : FdtdSolver) (p : SimulationParameters)
    (s0 : SimulationState) (n k : ℕ) (hk : k ≤ n) :
    (compute S p s0 n).2.getD k [] = (rowAt S p s0 k).2 :=
  getD_map_range _ _ _ (by omega) _

/-- The property claim C2 asserts of one `FdtdSolver::compute` call:
trajectory shapes `(nsteps+1) × (N+2)` and `(nsteps+1) × (N+1)`, row 0
equal to the input state, each voltage row `k+1` produced from row `k`
(source node first, interior nodes, terminator node) with the source
queried at `k·Δt + t₀`, and each current row `k+1` consuming the freshly
updated voltage row `k+1` — not the prior voltage row. -/
def ComputeSpec (S : FdtdSolver) (p : SimulationParameters)
    (s0 : SimulationState) (n : ℕ) : Prop :=
  (compute S p s0 n).1.length = n + 1
  ∧ (compute S p s0 n).2.length = n + 1
  ∧ (∀ r ∈ (compute S p s0 n).1, r.length = S.npoints + 2)
  ∧ (∀ r ∈ (compute S p s0 n).2, r.length = S.npoints + 1)
  ∧ (compute S p s0 n).1.getD 0 [] = s0.voltages
  ∧ (compute S p s0 n).2.getD 0 [] = s0.currents
  ∧ ∀ k, k < n →
      (compute S p s0 n).1.getD (k + 1) []
          = nextVoltRow S p ((k : ℚ) * p.delta_t + s0.time)
              ((compute S p s0 n).1.getD k [])
              ((compute S p s0 n).2.getD k [])
        ∧ (compute S p s0 n).2.getD (k + 1) []
          = nextCurrRow S p ((compute S p s0 n).1.getD (k + 1) [])
              ((compute S p s0 n).2.getD k [])

/-- Claim C2: in every step of `FdtdSolver::compute` the updates happen in
strict order (source voltage, interior voltages, terminator voltage, then
currents), the current row of step `k+1` consumes the voltage row of step
`k+1` (not the prior row), row 0 of each trajectory is the input state,
row `k` is the state after `k` steps, and the trajectories have shapes
`(steps+1) × (N+2)` and `(steps+1) × (N+1)`. -/
theorem fdtdSolver_compute_spec (S : FdtdSolver)
    (p : SimulationParameters) (s0 : SimulationState) (n : ℕ)
    (hv : s0.voltages.length = S.npoints + 2)
    (hc : s0.currents.length = S.npoints + 1) :
    ComputeSpec S p s0 n := by
  refine ⟨?_, ?_, ?_, ?_, ?_, ?_, ?_⟩
  · simp [compute]
  · simp [compute]
  · intro r hr
    simp only [compute, List.mem_map, List.mem_range] at hr
    obtain ⟨k, hk, rfl⟩ := hr
    cases k with
    | zero => simpa [rowAt] using hv
    | succ m => simp [rowAt, nextVoltRow_length]
  · intro r hr
    simp only [compute, List.mem_map, List.mem_range] at hr
    obtain ⟨k, hk, rfl⟩ := hr
    cases k with
    | zero => simpa [rowAt] using hc
    | succ m => simp [rowAt, nextCurrRow_length]
  · rw [compute_fst_getD S p s0 n 0 (Nat.zero_le n)]
    rfl
  · rw [compute_snd_getD S p s0 n 0 (Nat.zero_le n)]
    rfl
  · intro k hk
    rw [compute_fst_getD S p s0 n k (by omega),
      compute_fst_getD S p s0 n (k + 1) (by omega),
      compute_snd_getD S p s0 n k (by omega),
      compute_snd_getD S p s0 n (k + 1) (by omega)]
    exact ⟨rfl, rfl⟩

/-- Concrete line kernels for witnesses: simple arithmetic with no
division, so the evaluations reduce structurally. -/
def witnessComponent : Component :=
  ⟨fun lv il ir _ _ => lv + (il - ir), fun vl vr lc _ _ => lc + (vl - vr)⟩

/-- Concrete boundary source for witnesses. -/
def witnessSource : VSource := ⟨fun t lv lc _ => t + lv + lc⟩

/-- Concrete boundary terminator for witnesses. -/
def witnessTerminator : Terminator :=
  ⟨fun lv lc _ => lv + lc, fun vl vr lc _ => lc + (vl - vr)⟩

/-- A one-cell solver instance used by witnesses. -/
def witnessSolver : FdtdSolver :=
  ⟨1, witnessComponent, witnessSource, witnessTerminator⟩

/-- A valid initial state for `witnessSolver` (`N = 1`: 3 voltage nodes,
2 current nodes). -/
def witnessState : SimulationState := ⟨0, [1, 2, 3], [1, 1]⟩

/-- Witness for C2: the compute contract holds at a concrete one-cell
solver, a concrete valid state and two steps. -/
theorem fdtdSolver_compute_spec_witness :
    ComputeSpec witnessSolver ⟨1, 1⟩ witnessState 2 :=
  fdtdSolver_compute_spec witnessSolver ⟨1, 1⟩ witnessState 2 rfl rfl

/-! ## The simulation driver (`src/simulation.rs`) -/

/-- One driver iteration's in-memory state update (`Simulation::run`,
`src/simulation.rs` lines 227-232 and 282-286, persistence elided):
compute `n` steps from `s`, replace the state's voltage and current rows
with row `n` (`niters`) of the trajectories, and advance `time` by
`n·Δt`. -/
def batchAdvance (S : FdtdSolver) (p : SimulationParameters)
    (s : SimulationState) (n : ℕ) : SimulationState :=
  { time := s.time + (n : ℚ) * p.delta_t
    voltages := (compute S p s n).1.getD n []
    currents := (compute S p s n).2.getD n [] }

/-- The driver's batching loop (`Simulation::run`, lines 220-286, with
every persistence call succeeding): each batch's input state is the
previous batch's final state. -/
def runBatches (S : FdtdSolver) (p : SimulationParameters)
    (s : SimulationState) : List ℕ → SimulationState
  | [] => s
  | n :: rest => runBatches S p (batchAdvance S p s n) rest

theorem rowAt_batchAdvance (S : FdtdSolver) (p : SimulationParameters)
    (s : SimulationState) (a : ℕ) (k : ℕ) :
    rowAt S p (batchAdvance S p s a) k = rowAt S p s (a + k) := by
  induction k with
  | zero =>
      show ((batchAdvance S p s a).voltages,
          (batchAdvance S p s a).currents) = rowAt S p s (a + 0)
      rw [Nat.add_zero]
      show ((compute S p s a).1.getD a [], (compute S p s a).2.getD a [])
          = rowAt S p s a
      rw [compute_fst_getD S p s a a le_rfl,
        compute_snd_getD S p s a a le_rfl]
  | succ m ih =>
      have ht : (m : ℚ) * p.delta_t + (batchAdvance S p s a).time
          = ((a + m : ℕ) : ℚ) * p.delta_t + s.time := by
        show (m : ℚ) * p.delta_t + (s.time + (a : ℚ) * p.delta_t) = _
        push_cast
        ring
      have hsucc : a + (m + 1) = (a + m) + 1 := rfl
      rw [hsucc]
      simp only [rowAt]
      rw [ih, ht]

theorem batchAdvance_add (S : FdtdSolver) (p : SimulationParameters)
    (s : SimulationState) (a b : ℕ) :
    batchAdvance S p (batchAdvance S p s a) b
      = batchAdvance S p s (a + b) := by
  have ht : (batchAdvance S p s a).time + (b : ℚ) * p.delta_t
      = s.time + ((a + b : ℕ) : ℚ) * p.delta_t := by
    show s.time + (a : ℚ) * p.delta_t + (b : ℚ) * p.delta_t = _
    push_cast
    ring
  have hv : (compute S p (batchAdvance S p s a) b).1.getD b []
      = (compute S p s (a + b)).1.getD (a + b) [] := by
    rw [compute_fst_getD _ _ _ b b le_rfl,
      compute_fst_getD _ _ _ (a + b) (a + b) le_rfl,
      rowAt_batchAdvance]
  have hc : (compute S p (batchAdvance S p s a) b).2.getD b []
      = (compute S p s (a + b)).2.getD (a + b) [] := by
    rw [compute_snd_getD _ _ _ b b le_rfl,
      compute_snd_getD _ _ _ (a + b) (a + b) le_rfl,
      rowAt_batchAdvance]
  calc batchAdvance S p (batchAdvance S p s a) b
      = ⟨(batchAdvance S p s a).time + (b : ℚ) * p.delta_t,
         (compute S p (batchAdvance S p s a) b).1.getD b [],
         (compute S p (batchAdvance S p s a) b).2.getD b []⟩ := rfl
    _ = ⟨s.time + ((a + b : ℕ) : ℚ) * p.delta_t,
         (compute S p s (a + b)).1.getD (a + b) [],
         (compute S p s (a + b)).2.getD (a + b) []⟩ := by
        rw [ht, hv, hc]
    _ = batchAdvance S p s (a + b) := rfl

theorem batchAdvance_zero (S : FdtdSolver) (p : SimulationParameters)
    (s : SimulationState) : batchAdvance S p s 0 = s := by
  have ht : s.time + ((0 : ℕ) : ℚ) * p.delta_t = s.time := by
    push_cast
    ring
  have hv : (compute S p s 0).1.getD 0 [] = s.voltages := by
    rw [compute_fst_getD _ _ _ 0 0 le_rfl]
    rfl
  have hc : (compute S p s 0).2.getD 0 [] = s.currents := by
    rw [compute_snd_getD _ _ _ 0 0 le_rfl]
    rfl
  calc batchAdvance S p s 0
      = ⟨s.time + ((0 : ℕ) : ℚ) * p.delta_t,
         (compute S p s 0).1.getD 0 [], (compute S p s 0).2.getD 0 []⟩ :=
        rfl
    _ = ⟨s.time, s.voltages, s.currents⟩ := by rw [ht, hv, hc]
    _ = s := rfl

/-- Claim C3 (amended): batching is transparent in exact arithmetic.
For every solver, parameters, initial state and partition of the step
count into consecutive batches (`ns` is any list of batch sizes, in
particular any partition respecting the `store_size` bound), folding the
driver's per-batch state update over the batches yields exactly the
state — voltage row, current row and elapsed time — produced by a single
solver invocation over `ns.sum` steps.  The claim's *bit-for-bit* `f32`
identity does not hold for the elapsed time (see the counterexample
below): the proof of this exact-arithmetic statement reassociates
`m·Δt + (t0 + a·Δt) = (a+m)·Δt + t0`, which `f32` rounding does not
license. -/
theorem run_batching_transparent (S : FdtdSolver)
    (p : SimulationParameters) (s : SimulationState) (ns : List ℕ) :
    runBatches S p s ns = batchAdvance S p s ns.sum := by
  induction ns generalizing s with
  | nil => simpa [runBatches] using (batchAdvance_zero S p s).symm
  | cons n rest ih =>
      show runBatches S p (batchAdvance S p s n) rest = _
      rw [ih, batchAdvance_add]
      rfl

/-! ### Claim C3 at `f32` precision

The claim asserts *bit-for-bit* identity of the final state, elapsed
time included.  The driver accumulates `self.state.time +=
(niters as f32) * delta_t` per batch (`src/simulation.rs`, line 285),
while a single invocation adds `nsteps·Δt` in one rounded
multiply-and-add.  IEEE-754 `f32` addition and multiplication are
correctly rounded (round nearest, ties to even), so they are modelled
exactly: `fl(x) = roundF32 x` on the exact rational result.  With
`Δt = 0.1f32` and seven steps split `3 + 4`, the batched elapsed time is
one unit in the last place above the single-run elapsed time, refuting
the bit-for-bit claim; the amended exact-arithmetic statement is
`run_batching_transparent` above. -/

/-- Round a rational to an integer, nearest with ties to even (the
IEEE-754 default rounding's integer step). -/
def roundHalfEven (q : ℚ) : ℤ :=
  if q - ⌊q⌋ < 1/2 then ⌊q⌋
  else if (1:ℚ)/2 < q - ⌊q⌋ then ⌊q⌋ + 1
  else if ⌊q⌋ % 2 = 0 then ⌊q⌋ else ⌊q⌋ + 1

theorem roundHalfEven_of_lt_half {n : ℤ} {q : ℚ} (h1 : (n:ℚ) ≤ q)
    (h2 : q - n < 1/2) : roundHalfEven q = n := by
  have hf : ⌊q⌋ = n := Int.floor_eq_iff.mpr ⟨h1, by linarith⟩
  unfold roundHalfEven
  rw [hf, if_pos h2]

theorem roundHalfEven_of_half_lt {n : ℤ} {q : ℚ}
    (h1 : (1:ℚ)/2 < q - n) (h2 : q < n + 1) : roundHalfEven q = n + 1 := by
  have hf : ⌊q⌋ = n := Int.floor_eq_iff.mpr ⟨by linarith, h2⟩
  unfold roundHalfEven
  rw [hf, if_neg (by linarith), if_pos h1]

theorem roundHalfEven_tie_of_odd {n : ℤ} {q : ℚ}
    (hq : q = (n:ℚ) + 1/2) (hodd : n % 2 = 1) :
    roundHalfEven q = n + 1 := by
  have hf : ⌊q⌋ = n :=
    Int.floor_eq_iff.mpr ⟨by rw [hq]; linarith, by rw [hq]; linarith⟩
  unfold roundHalfEven
  rw [hf, if_neg (by rw [hq]; norm_num), if_neg (by rw [hq]; norm_num),
    if_neg (by omega)]

theorem int_log_two_eq {q : ℚ} {e : ℤ} (hq : 0 < q)
    (h1 : (2:ℚ) ^ e ≤ q) (h2 : q < (2:ℚ) ^ (e+1)) : Int.log 2 q = e := by
  have hle : e ≤ Int.log 2 q :=
    (Int.zpow_le_iff_le_log (by norm_num) hq).mp h1
  have hlt : Int.log 2 q < e + 1 :=
    (Int.lt_zpow_iff_log_lt (by norm_num) hq).mp h2
  omega

/-- IEEE-754 binary32 rounding (round nearest, ties to even) of a
rational: the significand is rounded to 24 bits in the binade of `q`
(`Int.log 2 |q|`).  `0` maps to `0`; subnormal and overflow behaviour
are not modelled — every value in this development lies well inside the
normal range.  Rust `f32` addition and multiplication are correctly
rounded, so `a ⊕ b = roundF32 (a + b)` and `a ⊗ b = roundF32 (a * b)`
for normal results, and the literal `0.1f32` is `roundF32 (1/10)`. -/
def roundF32 (q : ℚ) : ℚ :=
  if q = 0 then 0
  else (if q < 0 then -1 else 1)
    * (roundHalfEven (|q| * 2 ^ ((23:ℤ) - Int.log 2 |q|)) : ℚ)
    * 2 ^ (Int.log 2 |q| - 23)

theorem roundF32_eval {q : ℚ} {e m : ℤ} (hq : 0 < q)
    (h1 : (2:ℚ) ^ e ≤ q) (h2 : q < (2:ℚ) ^ (e + 1))
    (hm : roundHalfEven (q * 2 ^ ((23:ℤ) - e)) = m) :
    roundF32 q = (m : ℚ) * 2 ^ (e - 23) := by
  have habs : |q| = q := abs_of_pos hq
  have hlog : Int.log 2 q = e := int_log_two_eq hq h1 h2
  unfold roundF32
  rw [if_neg hq.ne', if_neg (not_lt.mpr hq.le), habs, hlog, hm, one_mul]

/-- Correctly rounded `f32` addition. -/
def addF32 (a b : ℚ) : ℚ := roundF32 (a + b)

/-- Correctly rounded `f32` multiplication. -/
def mulF32 (a b : ℚ) : ℚ := roundF32 (a * b)

/-- The elapsed-time accumulation of `Simulation::run` at `f32`
precision: per batch, `self.state.time += (niters as f32) * delta_t`
(`src/simulation.rs`, line 285), with the product and the sum correctly
rounded (the `usize`-to-`f32` conversion is exact for the small batch
sizes used here). -/
def timeAfterBatchesF32 (delta_t t0 : ℚ) : List ℕ → ℚ
  | [] => t0
  | n :: rest =>
      timeAfterBatchesF32 delta_t (addF32 t0 (mulF32 (n : ℚ) delta_t)) rest

theorem f32_dt_tenth : roundF32 (1/10) = 13421773 / 134217728 := by
  have h := roundF32_eval (q := 1/10) (e := -4) (m := 13421773)
    (by norm_num) (by norm_num) (by norm_num)
    (by
      apply roundHalfEven_of_half_lt (n := 13421772)
      · norm_num
      · norm_num)
  norm_num at h
  exact h

theorem f32_three_dt :
    mulF32 3 (13421773 / 134217728) = 5033165 / 16777216 := by
  have harg : (3 : ℚ) * (13421773 / 134217728) = 40265319 / 134217728 := by
    norm_num
  have h := roundF32_eval (q := 40265319 / 134217728) (e := -2)
    (m := 10066330) (by norm_num) (by norm_num) (by norm_num)
    (by
      apply roundHalfEven_of_half_lt (n := 10066329)
      · norm_num
      · norm_num)
  unfold mulF32
  rw [harg]
  norm_num at h
  exact h

theorem f32_four_dt :
    mulF32 4 (13421773 / 134217728) = 13421773 / 33554432 := by
  have harg : (4 : ℚ) * (13421773 / 134217728) = 13421773 / 33554432 := by
    norm_num
  have h := roundF32_eval (q := 13421773 / 33554432) (e := -2)
    (m := 13421773) (by norm_num) (by norm_num) (by norm_num)
    (by
      apply roundHalfEven_of_lt_half (n := 13421773)
      · norm_num
      · norm_num)
  unfold mulF32
  rw [harg]
  norm_num at h
  exact h

theorem f32_seven_dt :
    mulF32 7 (13421773 / 134217728) = 11744051 / 16777216 := by
  have harg : (7 : ℚ) * (13421773 / 134217728) = 93952411 / 134217728 := by
    norm_num
  have h := roundF32_eval (q := 93952411 / 134217728) (e := -1)
    (m := 11744051) (by norm_num) (by norm_num) (by norm_num)
    (by
      apply roundHalfEven_of_lt_half (n := 11744051)
      · norm_num
      · norm_num)
  unfold mulF32
  rw [harg]
  norm_num at h
  exact h

theorem f32_round_three_dt :
    addF32 0 (5033165 / 16777216) = 5033165 / 16777216 := by
  have h := roundF32_eval (q := 5033165 / 16777216) (e := -2)
    (m := 10066330) (by norm_num) (by norm_num) (by norm_num)
    (by
      apply roundHalfEven_of_lt_half (n := 10066330)
      · norm_num
      · norm_num)
  unfold addF32
  rw [zero_add]
  norm_num at h
  exact h

theorem f32_round_seven_dt :
    addF32 0 (11744051 / 16777216) = 11744051 / 16777216 := by
  have h := roundF32_eval (q := 11744051 / 16777216) (e := -1)
    (m := 11744051) (by norm_num) (by norm_num) (by norm_num)
    (by
      apply roundHalfEven_of_lt_half (n := 11744051)
      · norm_num
      · norm_num)
  unfold addF32
  rw [zero_add]
  norm_num at h
  exact h

theorem f32_batched_sum :
    addF32 (5033165 / 16777216) (13421773 / 33554432)
      = 2936013 / 4194304 := by
  have harg : (5033165 : ℚ) / 16777216 + 13421773 / 33554432
      = 23488103 / 33554432 := by
    norm_num
  have h := roundF32_eval (q := 23488103 / 33554432) (e := -1)
    (m := 11744052) (by norm_num) (by norm_num) (by norm_num)
    (roundHalfEven_tie_of_odd (n := 11744051) (by norm_num) (by norm_num))
  unfold addF32
  rw [harg]
  norm_num at h
  exact h

/-- Claim C3, as stated (bit-for-bit identity of the final state,
elapsed time included), is false for the program: with
`delta_t = 0.1f32 = roundF32 (1/10)` and initial time `0`, running
seven steps split into batches of 3 and 4 leaves
`state.time = 11744052·2⁻²⁴` (the batched sum `fl(fl(3Δt)+fl(4Δt))`
hits a tie and rounds up to even), while the single seven-step run
leaves `state.time = fl(7Δt) = 11744051·2⁻²⁴` — one unit in the last
place apart, under the correctly-rounded `f32` arithmetic Rust
specifies for `simulation.rs` line 285. -/
theorem claimC3_counterexample :
    timeAfterBatchesF32 (roundF32 (1/10)) 0 [3, 4]
      ≠ timeAfterBatchesF32 (roundF32 (1/10)) 0 [7] := by
  rw [f32_dt_tenth]
  have hb : timeAfterBatchesF32 (13421773 / 134217728) 0 [3, 4]
      = 2936013 / 4194304 := by
    simp only [timeAfterBatchesF32]
    push_cast
    rw [f32_three_dt, f32_round_three_dt, f32_four_dt, f32_batched_sum]
  have hs : timeAfterBatchesF32 (13421773 / 134217728) 0 [7]
      = 11744051 / 16777216 := by
    simp only [timeAfterBatchesF32]
    push_cast
    rw [f32_seven_dt, f32_round_seven_dt]
  rw [hb, hs]
  norm_num

/-! ## Source sample times (claim C10) -/

/-- The times at which one `FdtdSolver::compute` call queries the source:
`t = t_index·Δt + state.time` for `t_index` in `0..nsteps`
(`src/fdtd/fdtd_solver.rs`, line 45). -/
def batchSourceTimes (p : SimulationParameters) (t0 : ℚ) (n : ℕ) :
    List ℚ :=
  (List.range n).map (fun (k : ℕ) => (k : ℚ) * p.delta_t + t0)

/-- The source sample times of a whole multi-batch run: each batch
contributes its own sample times, and the driver advances `state.time` by
`niters·Δt` between batches. -/
def runSourceTimes (S : FdtdSolver) (p : SimulationParameters)
    (s : SimulationState) : List ℕ → List ℚ
  | [] => []
  | n :: rest =>
      batchSourceTimes p s.time n
        ++ runSourceTimes S p (batchAdvance S p s n) rest

/-- The property claim C10 asserts: within a batch starting at time `t0`,
the step producing voltage row `k+1` evaluates the source at
`k·Δt + t0` — the time of the state being advanced from — and across all
batches of a run the sample times form the gap-free, repeat-free sequence
`t0, t0+Δt, t0+2·Δt, …`. -/
def SourceTimesSpec (S : FdtdSolver) (p : SimulationParameters)
    (s0 : SimulationState) : Prop :=
  (∀ n k, k < n →
      ((compute S p s0 n).1.getD (k + 1) []).getD 0 0
        = S.source.next_voltage ((k : ℚ) * p.delta_t + s0.time)
            (((compute S p s0 n).1.getD k []).getD 0 0)
            (((compute S p s0 n).2.getD k []).getD 0 0) p)
  ∧ ∀ ns : List ℕ,
      runSourceTimes S p s0 ns
        = (List.range ns.sum).map
            (fun (k : ℕ) => (k : ℚ) * p.delta_t + s0.time)

/-- Claim C10: each step queries the waveform source once, at the time of
the row being advanced from, and the sample times across an entire
multi-batch run form an arithmetic progression with no gap or repeat at
batch boundaries. -/
theorem source_sample_times (S : FdtdSolver) (p : SimulationParameters)
    (s0 : SimulationState) : SourceTimesSpec S p s0 := by
  constructor
  · intro n k hk
    rw [compute_fst_getD S p s0 n k (by omega),
      compute_fst_getD S p s0 n (k + 1) (by omega),
      compute_snd_getD S p s0 n k (by omega)]
    rfl
  · intro ns
    induction ns generalizing s0 with
    | nil => rfl
    | cons n rest ih =>
        show batchSourceTimes p s0.time n
            ++ runSourceTimes S p (batchAdvance S p s0 n) rest
          = (List.range (n + rest.sum)).map
              (fun (k : ℕ) => (k : ℚ) * p.delta_t + s0.time)
        rw [ih, List.range_add, List.map_append, List.map_map]
        have harg : ((fun (k : ℕ) => (k : ℚ) * p.delta_t + s0.time)
              ∘ fun (j : ℕ) => n + j)
            = fun (k : ℕ) => (k : ℚ) * p.delta_t
                + (batchAdvance S p s0 n).time := by
          funext j
          show ((n + j : ℕ) : ℚ) * p.delta_t + s0.time
            = (j : ℚ) * p.delta_t + (s0.time + (n : ℚ) * p.delta_t)
          push_cast
          ring
        rw [harg]
        rfl

/-- Witness for C10: the source query producing voltage row 1 at the
concrete one-cell solver instance, with the hypothesis `0 < 1`
discharged. -/
theorem source_sample_times_witness :
    ((compute witnessSolver ⟨1, 1⟩ witnessState 1).1.getD 1 []).getD 0 0
      = witnessSolver.source.next_voltage
          ((0 : ℚ) * (1 : ℚ) + witnessState.time)
          (((compute witnessSolver ⟨1, 1⟩ witnessState 1).1.getD 0
              []).getD 0 0)
          (((compute witnessSolver ⟨1, 1⟩ witnessState 1).2.getD 0
              []).getD 0 0) ⟨1, 1⟩ :=
  (source_sample_times witnessSolver ⟨1, 1⟩ witnessState).1 1 0
    (by norm_num)

/-! ## Persistence failures (claim C8)

`Simulation::run` writes each batch's trajectory to the external store
before assigning the trajectory's last row to `self.state`; any write
failure propagates with `?`, returning from `run` before the state
update.  The store is external, so it is abstracted as a fallible
function of the batch index and the batch trajectory (`none` = success,
`some e` = failure with error `e`). -/

/-- The driver loop of `Simulation::run` (`src/simulation.rs`, lines
221-286) with its fallible persistence step: per batch, compute the
trajectory, attempt to persist it, and only on success assign the last
row to the state and continue; on failure return immediately with the
error and the un-advanced state. `i` is the batch counter. -/
def runPersist {ε : Type} (S : FdtdSolver) (p : SimulationParameters)
    (persist : ℕ → List (List ℚ) × List (List ℚ) → Option ε)
    (s : SimulationState) (i : ℕ) :
    List ℕ → SimulationState × Option ε
  | [] => (s, none)
  | n :: rest =>
      match persist i (compute S p s n) with
      | some e => (s, some e)
      | none => runPersist S p persist (batchAdvance S p s n) (i + 1) rest

/-- The property claim C8 asserts: the state returned by the driver loop
is always the pure (persistence-free) run over the prefix of successfully
persisted batches; on success the prefix is the whole run, and on a
persistence failure the failing batch is the first one past that prefix —
its trajectory was computed from, but never folded into, the returned
state. -/
def PersistSpec {ε : Type} (S : FdtdSolver) (p : SimulationParameters)
    (persist : ℕ → List (List ℚ) × List (List ℚ) → Option ε)
    (s : SimulationState) (i : ℕ) (ns : List ℕ) : Prop :=
  ∃ k, k ≤ ns.length
    ∧ (runPersist S p persist s i ns).1 = runBatches S p s (ns.take k)
    ∧ ((runPersist S p persist s i ns).2 = none → k = ns.length)
    ∧ ∀ e, (runPersist S p persist s i ns).2 = some e →
        k < ns.length
        ∧ persist (i + k)
            (compute S p (runBatches S p s (ns.take k)) (ns.getD k 0))
          = some e

/-- Claim C8: if persisting a batch's trajectory fails, the run aborts
with that error before the in-memory state is advanced for that batch:
the returned voltage array, current array and elapsed time are exactly
the state after the last successfully persisted batch. -/
theorem run_persist_failure_preserves_state {ε : Type}
    (S : FdtdSolver) (p : SimulationParameters)
    (persist : ℕ → List (List ℚ) × List (List ℚ) → Option ε)
    (s : SimulationState) (i : ℕ) (ns : List ℕ) :
    PersistSpec S p persist s i ns := by
  induction ns generalizing s i with
  | nil =>
      refine ⟨0, le_rfl, rfl, fun _ => rfl, fun e he => ?_⟩
      simp [runPersist] at he
  | cons n rest ih =>
      cases hp : persist i (compute S p s n) with
      | some e =>
          refine ⟨0, Nat.zero_le _, ?_, ?_, ?_⟩
          · show (runPersist S p persist s i (n :: rest)).1 = s
            simp [runPersist, hp]
          · intro hnone
            exfalso
            simp only [runPersist, hp] at hnone
            exact Option.noConfusion hnone
          · intro e2 he2
            simp only [runPersist, hp, Option.some.injEq] at he2
            subst he2
            exact ⟨Nat.succ_pos _, by simpa using hp⟩
      | none =>
          obtain ⟨k, hk, h1, h2, h3⟩ := ih (batchAdvance S p s n) (i + 1)
          have hrun : runPersist S p persist s i (n :: rest)
              = runPersist S p persist (batchAdvance S p s n) (i + 1)
                  rest := by
            simp [runPersist, hp]
          refine ⟨k + 1, by simpa using Nat.succ_le_succ hk, ?_, ?_, ?_⟩
          · rw [hrun, h1]
            rfl
          · intro hnone
            rw [hrun] at hnone
            have := h2 hnone
            simp [this]
          · intro e he
            rw [hrun] at he
            obtain ⟨hlt, hpe⟩ := h3 e he
            refine ⟨by simpa using Nat.succ_lt_succ hlt, ?_⟩
            have hi : i + (k + 1) = (i + 1) + k := by omega
            rw [hi]
            exact hpe

/-- A persistence collaborator for the witness: succeeds on batch 0 and
fails on every later batch. -/
def witnessPersist : ℕ → List (List ℚ) × List (List ℚ) → Option Unit :=
  fun i _ => if i = 0 then none else some ()

/-- Witness for C8: at the concrete one-cell instance with two batches of
one step each, persistence fails on the second batch (so the failure
hypotheses of the specification are exercised), and the contract holds
there. -/
theorem run_persist_failure_preserves_state_witness :
    (runPersist witnessSolver ⟨1, 1⟩ witnessPersist witnessState 0
        [1, 1]).2 = some ()
      ∧ PersistSpec witnessSolver ⟨1, 1⟩ witnessPersist witnessState 0
          [1, 1] :=
  ⟨rfl, run_persist_failure_preserves_state witnessSolver ⟨1, 1⟩
    witnessPersist witnessState 0 [1, 1]⟩

/-! ## Construction-time validation (claim C4) -/

/-- The `Error` enum of `src/lib.rs` (the variants relevant to the core;
`BadInit` carries the offending array's name, the reported input length,
and the expected length). -/
inductive Error where
  | BadInit (array_name : String) (input_length expected_length : ℕ)
  | ComputationError (code : ℤ)
deriving DecidableEq

/-- Model of `Simulation::new` (`src/simulation.rs`, lines 77-106): with
`total_points = 1 + npoints`, a missing initial state defaults to zeros
of the right lengths; a supplied state is rejected if its voltage row is
not `total_points + 1` long or its current row is not `total_points`
long.  NOTE (faithful to the source): in the Current branch the code
reports `state.voltages.len()` — the VOLTAGE row's length — as
`input_length`. -/
def Simulation.new (npoints : ℕ) (init_state : Option SimulationState) :
    Except Error SimulationState :=
  let total_points := 1 + npoints
  let state := init_state.getD
    ⟨0, List.replicate (total_points + 1) 0, List.replicate total_points 0⟩
  if state.voltages.length ≠ total_points + 1 then
    .error (.BadInit "Voltage" state.voltages.length (total_points + 1))
  else if state.currents.length ≠ total_points then
    .error (.BadInit "Current" state.voltages.length total_points)
  else
    .ok state

/-- Claim C4 is contradicted by the code at this input: for a line with
`N = 1` cells, a voltage row of the correct length 3 and a current row of
the wrong length 5, construction fails citing "Current" but reports
`input_length = 3` — the VOLTAGE row's length — instead of the current
row's actual length 5, against both the claim and the error's own
message format. -/
theorem simulation_new_current_length_bug :
    Simulation.new 1 (some ⟨0, [0, 0, 0], [0, 0, 0, 0, 0]⟩)
      = .error (.BadInit "Current" 3 2) := by
  rfl

/-! ## Zero-length runs (claim C5) -/

/-- Model of `store_size` as computed by `Simulation::run` (`src/simulation.rs`,
line 116): `min(nsteps + 1, 100_000_000 / total_points + 1)`. -/
def store_size (nsteps total_points : ℕ) : ℕ :=
  min (nsteps + 1) (100000000 / total_points + 1)

/-- The loop-count computation of `Simulation::run` (`src/simulation.rs`,
line 220): `nloops = ((nsteps - 1) / (store_size - 1)) + 1` on `usize`.
In Rust, `nsteps - 1` underflows when `nsteps = 0` (a panic in debug
builds, wrap-around to `2^64 - 1` in release builds, modelled here by the
wrapping subtraction), and the subsequent division panics in every build
when `store_size - 1 = 0`; a panic is modelled as `none`. -/
def num_loops (nsteps total_points : ℕ) : Option ℕ :=
  let wrapped := (nsteps + (2 ^ 64 - 1)) % 2 ^ 64
  let divisor := store_size nsteps total_points - 1
  if divisor = 0 then none else some (wrapped / divisor + 1)

/-- Claim C5 is contradicted by the code: for `nsteps = 0` (a zero-length
run) and any line width `total_points = 1 + npoints`, `store_size` is
`min(1, _) = 1`, so `Simulation::run` evaluates `(nsteps-1)/(store_size-1)`
with a zero divisor (after the `nsteps - 1` underflow) and panics instead
of returning successfully with the state unchanged. -/
theorem run_zero_steps_panics (npoints : ℕ) :
    num_loops 0 (1 + npoints) = none := by
  have hdiv : store_size 0 (1 + npoints) = 1 := by
    simp [store_size]
  simp [num_loops, hdiv]

/-! ## Max phase velocity (claim C6)

`LinearLine::max_phase_velocity` (`src/fdtd/components/linear_line.rs`,
lines 92-98) and `KiLine::max_phase_velocity`
(`src/fdtd/components/ki_line.rs`, lines 115-121) share one body: map
each cell's inductance/capacitance pair to `sqrt(ind * cap).recip()` and
reduce with `|accum, item| if accum >= item { accum } else { item }`.
Square roots force the model into `ℝ`, whose order is only classically
decidable, hence the `noncomputable` markers. -/

/-- The reduce combinator of `max_phase_velocity`: keep the accumulator
unless the new candidate is strictly larger. -/
noncomputable def velReduce (accum item : ℝ) : ℝ :=
  if accum ≥ item then accum else item

/-- Model of `max_phase_velocity` over the per-cell inductance and capacitance
sequences; `none` models the `.unwrap()` panic on an empty line. -/
noncomputable def max_phase_velocity (ind cap : List ℝ) : Option ℝ :=
  match List.zipWith (fun i c => (Real.sqrt (i * c))⁻¹) ind cap with
  | [] => none
  | v :: vs => some (vs.foldl velReduce v)

theorem velReduce_eq_max (a b : ℝ) : velReduce a b = max a b := by
  unfold velReduce
  rcases le_or_lt b a with h | h
  · rw [if_pos h, max_eq_left h]
  · rw [if_neg (not_le.mpr h), max_eq_right h.le]

theorem foldl_velReduce_eq_max (vs : List ℝ) (v : ℝ) :
    vs.foldl velReduce v = vs.foldl max v := by
  induction vs generalizing v with
  | nil => rfl
  | cons a t ih => simp [List.foldl_cons, velReduce_eq_max, ih]

theorem zipWith_replicate_same {α β γ : Type} (f : α → β → γ) (n : ℕ)
    (a : α) (b : β) :
    List.zipWith f (List.replicate n a) (List.replicate n b)
      = List.replicate n (f a b) := by
  induction n with
  | zero => rfl
  | succ m ih => simp [List.replicate_succ, ih]

theorem foldl_max_replicate (m : ℕ) (v : ℝ) :
    (List.replicate m v).foldl max v = v := by
  induction m with
  | zero => rfl
  | succ k ih => simp [List.replicate_succ, ih]

/-- The property claim C6 asserts: the reduction computes the maximum of
the per-cell velocities `1/sqrt(ind_i · cap_i)` (each comparison keeps
the accumulator unless the candidate is strictly larger, so value-wise it
is the list maximum and equal maxima keep the first found); consequently
a uniform line with constant `L`, `C` has `max_phase_velocity` exactly
`1/sqrt(L·C)` for every positive cell count. -/
def MaxPhaseVelocitySpec : Prop :=
  (∀ (ind cap : List ℝ) (v : ℝ) (vs : List ℝ),
      List.zipWith (fun i c => (Real.sqrt (i * c))⁻¹) ind cap = v :: vs →
      max_phase_velocity ind cap = some (vs.foldl max v))
  ∧ ∀ (n : ℕ) (L C : ℝ), 0 < n →
      max_phase_velocity (List.replicate n L) (List.replicate n C)
        = some ((Real.sqrt (L * C))⁻¹)

/-- Claim C6: `max_phase_velocity` is the maximum over cells of
`1/sqrt(inductance·capacitance)` (first-found on ties), and for a uniform
line it equals `1/sqrt(L·C)` exactly, for every cell count. -/
theorem max_phase_velocity_spec : MaxPhaseVelocitySpec := by
  constructor
  · intro ind cap v vs h
    unfold max_phase_velocity
    rw [h]
    show some (List.foldl velReduce v vs) = some (List.foldl max v vs)
    rw [foldl_velReduce_eq_max]
  · intro n L C hn
    cases n with
    | zero => exact absurd hn (by norm_num)
    | succ m =>
        unfold max_phase_velocity
        rw [zipWith_replicate_same, List.replicate_succ]
        show some (List.foldl velReduce ((Real.sqrt (L * C))⁻¹)
            (List.replicate m ((Real.sqrt (L * C))⁻¹)))
          = some ((Real.sqrt (L * C))⁻¹)
        rw [foldl_velReduce_eq_max, foldl_max_replicate]

/-- Witness for C6: a uniform two-cell line with `L = C = 1`, the cell
count hypothesis `0 < 2` discharged. -/
theorem max_phase_velocity_spec_witness :
    max_phase_velocity (List.replicate 2 (1 : ℝ))
        (List.replicate 2 (1 : ℝ))
      = some ((Real.sqrt (1 * 1))⁻¹) :=
  max_phase_velocity_spec.2 2 1 1 (by norm_num)

end Tline
